import Mathlib

/-!
Verification of the transaction core of the MilkStoreShop point-of-sale
program (src/pos_milk_store.py).

The embedding models the SQLAlchemy session/database pair explicitly:
`Store` is one snapshot of the three tables (products, orders, order_items);
an `AppState` carries the committed database `db`, the live session view
`sess` (identity map plus pending, possibly uncommitted, changes), and the
in-memory cart (a Python dict from product id to accumulated quantity,
modelled as an insertion-ordered association list).  `session.commit()`
is modelled as `db := sess`.  Monetary and quantity values (Python floats
holding small decimals) are modelled as exact rationals.
-/

attribute [local semireducible] Rat.mul Rat.add Rat.sub Rat.inv

namespace MilkStore

/-- `Product` ORM row: id (integer primary key), unique name,
`price_per_unit`, `stock` (both FLOAT columns). -/
structure Product where
  id : Nat
  name : String
  price_per_unit : Rat
  stock : Rat
deriving Repr, DecidableEq

/-- `Order` ORM row: id, creation timestamp (kept abstract as the string the
receipt prints), and `total` (FLOAT, column default 0.0). -/
structure Order where
  id : Nat
  timestamp : String
  total : Rat
deriving Repr, DecidableEq

/-- `OrderItem` ORM row: id, owning order, referenced product, quantity and
the `line_total` snapshot taken at checkout. -/
structure OrderItem where
  id : Nat
  order_id : Nat
  product_id : Nat
  quantity : Rat
  line_total : Rat
deriving Repr, DecidableEq

/-- One snapshot of the three tables. -/
structure Store where
  products : List Product
  orders : List Order
  order_items : List OrderItem
deriving Repr, DecidableEq

/-- Whole-application state: committed database, live session view, and the
in-memory cart (`self.cart`, a dict from product id to accumulated
quantity; Python dicts preserve insertion order). -/
structure AppState where
  db : Store
  sess : Store
  cart : List (Nat × Rat)
deriving Repr, DecidableEq

/-- `session.get(Product, pid)`: first row whose primary key matches. -/
def getProduct (prods : List Product) (pid : Nat) : Option Product :=
  prods.find? (fun p => p.id == pid)

/-- Point lookup of an order by primary key. -/
def getOrder (orders : List Order) (oid : Nat) : Option Order :=
  orders.find? (fun o => o.id == oid)

/-- Fresh integer primary key assigned on insert (SQLite rowid:
one more than the largest existing id). -/
def freshId (ids : List Nat) : Nat :=
  ids.foldr max 0 + 1

/-- `self.cart[product.id] = self.cart.get(product.id, 0) + qty`:
update in place when the key exists, else append at the end. -/
def cartAdd : List (Nat × Rat) → Nat → Rat → List (Nat × Rat)
  | [], pid, qty => [(pid, qty)]
  | (k, q) :: rest, pid, qty =>
      if k == pid then (k, q + qty) :: rest
      else (k, q) :: cartAdd rest pid qty

/-- `POSApp.add_to_cart(product, qty)`: pure cart mutation, no store access. -/
def add_to_cart (s : AppState) (pid : Nat) (qty : Rat) : AppState :=
  { s with cart := cartAdd s.cart pid qty }

/-- `POSApp._remove_selected`: `del self.cart[pid]` for the chosen id. -/
def remove_from_cart (s : AppState) (pid : Nat) : AppState :=
  { s with cart := s.cart.filter (fun e => e.1 != pid) }

/-- `POSApp._clear_cart` (confirmed): `self.cart.clear()`. -/
def clear_cart (s : AppState) : AppState :=
  { s with cart := [] }

/-- Outcome of `POSApp._add_product`. -/
inductive AddProductResult
  | cancelled
  | invalidInput
  | ok
deriving Repr, DecidableEq

/-- `POSApp._add_product`.  The two numeric dialog inputs are modelled as
`Option Rat`: `none` is an input `float(...)` raises on (non-numeric text or
a cancelled dialog), which the bare `except` turns into an error message and
an early return.  No sign check is performed on parsed values.  On success
the matching row (by unique name) is overwritten, or a new row inserted,
and the session is committed. -/
def add_product (s : AppState) (name : String) (price stock : Option Rat) :
    AppState × AddProductResult :=
  if name = "" then (s, .cancelled)
  else
    match price, stock with
    | some pr, some st =>
        match s.sess.products.find? (fun p => p.name == name) with
        | some _ =>
            let prods2 := s.sess.products.map
              (fun p => if p.name == name then { p with price_per_unit := pr, stock := st } else p)
            let sess2 := { s.sess with products := prods2 }
            ({ db := sess2, sess := sess2, cart := s.cart }, .ok)
        | none =>
            let pid := freshId (s.sess.products.map Product.id)
            let sess2 := { s.sess with
              products := s.sess.products ++ [⟨pid, name, pr, st⟩] }
            ({ db := sess2, sess := sess2, cart := s.cart }, .ok)
    | _, _ => (s, .invalidInput)

/-- `POSApp._delete_product` (selection exists and the operator confirms):
`session.delete(prod); session.commit()`.  A missing id is a no-op here;
in the source the id always comes from the products tree. -/
def delete_product (s : AppState) (pid : Nat) : AppState :=
  match getProduct s.sess.products pid with
  | none => s
  | some _ =>
      let sess2 := { s.sess with
        products := s.sess.products.filter (fun p => p.id != pid) }
      { db := sess2, sess := sess2, cart := s.cart }

/-- `p.stock -= qty` seen through the session: every loaded row whose id
matches is updated (ids are unique in practice). -/
def decStock (prods : List Product) (pid : Nat) (qty : Rat) : List Product :=
  prods.map (fun p => if p.id == pid then { p with stock := p.stock - qty } else p)

/-- How one run of the `for pid, qty in self.cart.items()` loop of
`POSApp._checkout` ends, carrying the session-visible product rows and the
`OrderItem`s added (pending) so far. -/
inductive LoopOut
  | abortNone (pid : Nat) (prods : List Product) (items : List OrderItem)
  | abortStock (name : String) (prods : List Product) (items : List OrderItem)
  | done (prods : List Product) (items : List OrderItem) (total : Rat)
deriving Repr, DecidableEq

/-- Product rows as the loop left them, in every outcome. -/
def LoopOut.products : LoopOut → List Product
  | .abortNone _ prods _ => prods
  | .abortStock _ prods _ => prods
  | .done prods _ _ => prods

/-- Pending order items as the loop left them, in every outcome. -/
def LoopOut.items : LoopOut → List OrderItem
  | .abortNone _ _ items => items
  | .abortStock _ _ items => items
  | .done _ items _ => items

/-- The body of `POSApp._checkout`'s cart loop.  For each entry:
`session.get` the product (`none` means the later `p.stock` attribute
access raises on `None`); compare stock against the requested quantity and
abort on shortage; otherwise accumulate `line = p.price_per_unit * qty`
into the running total, decrement the session row's stock, and add a
pending `OrderItem` snapshot. -/
def checkoutLoop (oid : Nat) :
    List (Nat × Rat) → List Product → List OrderItem → Rat → Nat → LoopOut
  | [], prods, items, total, _ => .done prods items total
  | (pid, qty) :: rest, prods, items, total, nid =>
      match getProduct prods pid with
      | none => .abortNone pid prods items
      | some p =>
          if p.stock < qty then .abortStock p.name prods items
          else
            checkoutLoop oid rest (decStock prods pid qty)
              (items ++ [⟨nid, oid, pid, qty, p.price_per_unit * qty⟩])
              (total + p.price_per_unit * qty) (nid + 1)

/-- Outcome of `POSApp._checkout` as reported to the operator. -/
inductive CheckoutResult
  | emptyCart
  | attributeErrorNone (pid : Nat)
  | insufficientStock (name : String)
  | success (oid : Nat)
deriving Repr, DecidableEq

/-- `POSApp._checkout`.  An empty cart only shows a message.  Otherwise a
fresh `Order` row is added and committed at once (flushing any previously
pending session changes with it; `total` takes its column default 0.0),
then the cart loop runs.  On an abort the method returns with the loop's
row mutations and pending items left uncommitted in the session and the
cart intact; on completion `order.total` is set and everything is
committed, and the cart is cleared. -/
def checkout (now : String) (s : AppState) : AppState × CheckoutResult :=
  match s.cart with
  | [] => (s, .emptyCart)
  | _ :: _ =>
      let oid := freshId (s.sess.orders.map Order.id)
      let sess1 : Store := { s.sess with orders := s.sess.orders ++ [⟨oid, now, 0⟩] }
      let nid := freshId (s.sess.order_items.map OrderItem.id)
      match checkoutLoop oid s.cart sess1.products [] 0 nid with
      | .abortNone pid prods items =>
          let sessA : Store :=
            { products := prods,
              orders := sess1.orders,
              order_items := sess1.order_items ++ items }
          ({ db := sess1, sess := sessA, cart := s.cart }, .attributeErrorNone pid)
      | .abortStock nm prods items =>
          let sessA : Store :=
            { products := prods,
              orders := sess1.orders,
              order_items := sess1.order_items ++ items }
          ({ db := sess1, sess := sessA, cart := s.cart }, .insufficientStock nm)
      | .done prods items total =>
          let sess2 : Store :=
            { products := prods,
              orders := sess1.orders.map
                (fun o => if o.id == oid then { o with total := total } else o),
              order_items := sess1.order_items ++ items }
          ({ db := sess2, sess := sess2, cart := [] }, .success oid)

/-- A run of `n` spaces. -/
def spaces (n : Nat) : String :=
  String.mk (List.replicate n ' ')

/-- Python right alignment `:>w`: pad on the left to width `w`
(no truncation when already wider). -/
def padLeft (s : String) (w : Nat) : String :=
  spaces (w - s.length) ++ s

/-- Python left alignment `:ws` for strings: pad on the right to width `w`. -/
def padRight (s : String) (w : Nat) : String :=
  s ++ spaces (w - s.length)

/-- Nearest integer to a rational, halves rounded up: `⌊y + 1/2⌋`,
computed as a floor division so the kernel can evaluate it. -/
def nearestInt (y : Rat) : Int :=
  Int.fdiv (2 * y.num + y.den) (2 * y.den)

/-- Python `:.2f` on the exact rational a small decimal float denotes:
round to two decimal places and print with exactly two fraction digits.
(Binary-float tie handling differs only on values not representable in two
decimals; all values in this development are.) -/
def fmt2 (x : Rat) : String :=
  let n : Int := nearestInt (x * 100)
  let a := n.natAbs
  let frac := a % 100
  let fracStr := if frac < 10 then "0" ++ toString frac else toString frac
  (if n < 0 then "-" else "") ++ toString (a / 100) ++ "." ++ fracStr

/-- `'-'*40`. -/
def dashLine : String :=
  "----------------------------------------"

/-- One receipt body line:
`f"{item.product.name:15s} {item.quantity:>5.2f} × {item.product.price_per_unit:>6.2f} = {item.line_total:>7.2f}"`.
`item.product` is a live relationship lookup; when the product row no longer
exists the attribute access raises, modelled as `none`. -/
def itemLine (products : List Product) (it : OrderItem) : Option String :=
  match getProduct products it.product_id with
  | none => none
  | some p =>
      some (padRight p.name 15 ++ " " ++ padLeft (fmt2 it.quantity) 5 ++ " × "
        ++ padLeft (fmt2 p.price_per_unit) 6 ++ " = " ++ padLeft (fmt2 it.line_total) 7)

/-- The `for item in order.items` loop of `save_receipt`, collecting the
formatted body lines in item order. -/
def itemLines (products : List Product) : List OrderItem → Option (List String)
  | [] => some []
  | it :: rest =>
      match itemLine products it, itemLines products rest with
      | some l, some ls => some (l :: ls)
      | _, _ => none

/-- `save_receipt(order)`: the full list of receipt lines (joined with
newlines when written to `receipt_<id>.txt` and shown to the operator).
`items` stands for `order.items`, the order's `OrderItem` rows in insertion
order; `products` is the current catalog the item-to-product relationship
reads through. -/
def save_receipt (products : List Product) (o : Order) (items : List OrderItem) :
    Option (List String) :=
  match itemLines products items with
  | none => none
  | some body =>
      some (["*** MILK SHOP RECEIPT ***",
             "Order #" ++ toString o.id ++ "   " ++ o.timestamp,
             dashLine] ++ body
            ++ [dashLine, "TOTAL: " ++ fmt2 o.total, "Thank you!"])

/-- The `OrderItem` rows belonging to one order (`order.items`), in
insertion order. -/
def orderItemsOf (st : Store) (oid : Nat) : List OrderItem :=
  st.order_items.filter (fun it => it.order_id == oid)

/-- Total quantity of a product accumulated over cart entries (the amount a
successful checkout removes from that product's stock). -/
def entriesQty (entries : List (Nat × Rat)) (pid : Nat) : Rat :=
  ((entries.filter (fun e => e.1 == pid)).map (fun e => e.2)).sum

/-! ### Concrete fixtures used by closed theorems and witnesses -/

/-- The empty store (no rows in any table). -/
def emptyStore : Store := ⟨[], [], []⟩

/-- A clean state: one catalog row (the first seeded product at its default
price, stock 10), committed, session in sync, cart empty. -/
def milkClean : AppState :=
  ⟨⟨[⟨1, "Milk (per kg)", 150, 10⟩], [], []⟩,
   ⟨[⟨1, "Milk (per kg)", 150, 10⟩], [], []⟩, []⟩

/-- `milkClean` with two units of product 1 in the cart. -/
def milkCart : AppState := { milkClean with cart := [(1, 2)] }

/-! ### Cart lemmas -/

lemma cartAdd_not_mem (cart : List (Nat × Rat)) (pid : Nat) (q : Rat)
    (h : ∀ e ∈ cart, e.1 ≠ pid) :
    cartAdd cart pid q = cart ++ [(pid, q)] := by
  induction cart with
  | nil => rfl
  | cons e rest ih =>
      obtain ⟨k, q0⟩ := e
      have hk : k ≠ pid := h (k, q0) (List.mem_cons_self _ _)
      have hrest : ∀ e ∈ rest, e.1 ≠ pid := fun e he => h e (List.mem_cons_of_mem _ he)
      simp [cartAdd, hk, ih hrest]

lemma cartAdd_append_same (cart : List (Nat × Rat)) (pid : Nat) (q1 q2 : Rat)
    (h : ∀ e ∈ cart, e.1 ≠ pid) :
    cartAdd (cart ++ [(pid, q1)]) pid q2 = cart ++ [(pid, q1 + q2)] := by
  induction cart with
  | nil => simp [cartAdd]
  | cons e rest ih =>
      obtain ⟨k, q0⟩ := e
      have hk : k ≠ pid := h (k, q0) (List.mem_cons_self _ _)
      have hrest : ∀ e ∈ rest, e.1 ≠ pid := fun e he => h e (List.mem_cons_of_mem _ he)
      simp [cartAdd, hk, ih hrest]

/-! ### Product lookup and stock decrement lemmas -/

lemma decFun_id (pid : Nat) (qty : Rat) (p : Product) :
    (if p.id == pid then { p with stock := p.stock - qty } else p).id = p.id := by
  split <;> rfl

lemma decFun_price (pid : Nat) (qty : Rat) (p : Product) :
    (if p.id == pid then { p with stock := p.stock - qty } else p).price_per_unit
      = p.price_per_unit := by
  split <;> rfl

lemma getProduct_map (f : Product → Product) (hf : ∀ p, (f p).id = p.id)
    (prods : List Product) (x : Nat) :
    getProduct (prods.map f) x = (getProduct prods x).map f := by
  induction prods with
  | nil => rfl
  | cons p rest ih =>
      simp only [getProduct, List.map_cons, List.find?] at ih ⊢
      rw [hf p]
      cases hpx : p.id == x
      · exact ih
      · rfl

lemma map_congr_fun {α β : Type} {f g : α → β} (h : ∀ a, f a = g a) :
    ∀ l : List α, l.map f = l.map g := by
  intro l
  induction l with
  | nil => rfl
  | cons a t ih => simp only [List.map_cons, h a, ih]

lemma map_eq_self {α : Type} {f : α → α} (h : ∀ a, f a = a) :
    ∀ l : List α, l.map f = l := by
  intro l
  induction l with
  | nil => rfl
  | cons a t ih => simp only [List.map_cons, h a, ih]

lemma decStock_map_id (prods : List Product) (pid : Nat) (qty : Rat) :
    (decStock prods pid qty).map Product.id = prods.map Product.id := by
  unfold decStock
  rw [List.map_map]
  exact map_congr_fun (fun p => decFun_id pid qty p) prods

lemma getProduct_eq (prods : List Product) (pid : Nat) (p : Product)
    (h : getProduct prods pid = some p) : p ∈ prods ∧ p.id = pid := by
  refine ⟨List.mem_of_find?_eq_some h, ?_⟩
  have := List.find?_some h
  simpa using this

lemma getProduct_unique (prods : List Product) (pid : Nat) (p : Product)
    (hnd : (prods.map Product.id).Nodup) (hf : getProduct prods pid = some p) :
    ∀ q ∈ prods, q.id = pid → q = p := by
  induction prods with
  | nil => simp
  | cons a rest ih =>
      intro q hq hqid
      rw [List.map_cons, List.nodup_cons] at hnd
      by_cases ha : (a.id == pid) = true
      · have hfa : getProduct (a :: rest) pid = some a :=
          List.find?_cons_of_pos _ ha
        have hpa : p = a := by
          rw [hf] at hfa
          exact Option.some.inj hfa
        rcases List.mem_cons.mp hq with rfl | hq2
        · rw [hpa]
        · exfalso
          apply hnd.1
          have hqa : q.id = a.id := by
            rw [hqid]
            exact (beq_iff_eq.mp ha).symm
          exact hqa ▸ List.mem_map_of_mem Product.id hq2
      · have hfa : getProduct (a :: rest) pid = getProduct rest pid :=
          List.find?_cons_of_neg _ ha
        rw [hfa] at hf
        rcases List.mem_cons.mp hq with rfl | hq2
        · exact absurd (beq_iff_eq.mpr hqid) ha
        · exact ih hnd.2 hf q hq2 hqid

lemma decStock_nonneg (prods : List Product) (pid : Nat) (qty : Rat) (p : Product)
    (hnd : (prods.map Product.id).Nodup) (hf : getProduct prods pid = some p)
    (hpq : ¬ p.stock < qty) (hnn : ∀ q ∈ prods, 0 ≤ q.stock) :
    ∀ q ∈ decStock prods pid qty, 0 ≤ q.stock := by
  intro q hq
  unfold decStock at hq
  obtain ⟨q0, hq0, rfl⟩ := List.mem_map.mp hq
  by_cases h0 : (q0.id == pid) = true
  · have hq0p : q0 = p :=
      getProduct_unique prods pid p hnd hf q0 hq0 (beq_iff_eq.mp h0)
    rw [if_pos h0]
    subst hq0p
    have : qty ≤ q0.stock := le_of_not_lt hpq
    simpa using sub_nonneg.mpr this
  · rw [if_neg h0]
    exact hnn q0 hq0

/-! ### Cart-entry quantity lemmas -/

lemma entriesQty_nil (x : Nat) : entriesQty [] x = 0 := rfl

lemma entriesQty_cons (k : Nat) (q : Rat) (rest : List (Nat × Rat)) (x : Nat) :
    entriesQty ((k, q) :: rest) x = (if k == x then q else 0) + entriesQty rest x := by
  by_cases hk : (k == x) = true
  · simp [entriesQty, List.filter_cons, hk]
  · simp [entriesQty, List.filter_cons, hk]

lemma entriesQty_eq_zero (entries : List (Nat × Rat)) (pid : Nat)
    (h : ∀ e ∈ entries, e.1 ≠ pid) : entriesQty entries pid = 0 := by
  unfold entriesQty
  have : entries.filter (fun e => e.1 == pid) = [] := by
    rw [List.filter_eq_nil_iff]
    intro e he
    simpa using h e he
  rw [this]
  rfl

/-! ### Checkout loop lemmas -/

lemma checkoutLoop_map_id (oid : Nat) (entries : List (Nat × Rat)) :
    ∀ prods items total nid,
      ((checkoutLoop oid entries prods items total nid).products).map Product.id
        = prods.map Product.id := by
  induction entries with
  | nil =>
      intro prods items total nid
      rfl
  | cons e rest ih =>
      intro prods items total nid
      obtain ⟨pid, qty⟩ := e
      simp only [checkoutLoop]
      cases hf : getProduct prods pid with
      | none => rfl
      | some p =>
          dsimp only
          by_cases hlt : p.stock < qty
          · rw [if_pos hlt]
            rfl
          · rw [if_neg hlt]
            rw [ih, decStock_map_id]

lemma checkoutLoop_nonneg (oid : Nat) (entries : List (Nat × Rat)) :
    ∀ prods items total nid,
      (prods.map Product.id).Nodup → (∀ p ∈ prods, 0 ≤ p.stock) →
      ∀ q ∈ (checkoutLoop oid entries prods items total nid).products, 0 ≤ q.stock := by
  induction entries with
  | nil =>
      intro prods items total nid _ hnn
      exact hnn
  | cons e rest ih =>
      intro prods items total nid hnd hnn
      obtain ⟨pid, qty⟩ := e
      simp only [checkoutLoop]
      cases hf : getProduct prods pid with
      | none => exact hnn
      | some p =>
          dsimp only
          by_cases hlt : p.stock < qty
          · rw [if_pos hlt]
            exact hnn
          · rw [if_neg hlt]
            apply ih
            · rw [decStock_map_id]
              exact hnd
            · exact decStock_nonneg prods pid qty p hnd hf hlt hnn

lemma checkoutLoop_done (oid : Nat) (entries : List (Nat × Rat)) :
    ∀ prods items total nid prods2 items2 total2,
      checkoutLoop oid entries prods items total nid = .done prods2 items2 total2 →
      ∃ extra : List OrderItem,
        items2 = items ++ extra ∧
        total2 = total + (extra.map OrderItem.line_total).sum ∧
        extra.map (fun it => (it.product_id, it.quantity)) = entries ∧
        ∀ it ∈ extra, it.order_id = oid ∧
          ∃ p, getProduct prods it.product_id = some p ∧
            it.line_total = it.quantity * p.price_per_unit := by
  induction entries with
  | nil =>
      intro prods items total nid prods2 items2 total2 h
      injection h with h1 h2 h3
      refine ⟨[], ?_, ?_, rfl, ?_⟩
      · rw [← h2]
        simp
      · rw [← h3]
        simp
      · intro it hit
        exact absurd hit (List.not_mem_nil it)
  | cons e rest ih =>
      intro prods items total nid prods2 items2 total2 h
      obtain ⟨pid, qty⟩ := e
      simp only [checkoutLoop] at h
      cases hf : getProduct prods pid with
      | none =>
          rw [hf] at h
          exact LoopOut.noConfusion h
      | some p =>
          rw [hf] at h
          dsimp only at h
          by_cases hlt : p.stock < qty
          · rw [if_pos hlt] at h
            exact LoopOut.noConfusion h
          · rw [if_neg hlt] at h
            obtain ⟨extra, hitems, htotal, hmap, hprops⟩ :=
              ih _ _ _ _ _ _ _ h
            refine ⟨⟨nid, oid, pid, qty, p.price_per_unit * qty⟩ :: extra, ?_, ?_, ?_, ?_⟩
            · rw [hitems]
              simp
            · rw [htotal]
              simp only [List.map_cons, List.sum_cons]
              ring
            · simp only [List.map_cons, hmap]
            · intro it hit
              rcases List.mem_cons.mp hit with rfl | hit2
              · exact ⟨rfl, p, hf, mul_comm _ _⟩
              · obtain ⟨hoid, p2, hf2, hlt2⟩ := hprops it hit2
                simp only [decStock] at hf2
                rw [getProduct_map _ (decFun_id pid qty) prods] at hf2
                cases hf0 : getProduct prods it.product_id with
                | none =>
                    rw [hf0] at hf2
                    exact absurd hf2 (by simp)
                | some p0 =>
                    rw [hf0] at hf2
                    have hp2 : p2 = if p0.id == pid then { p0 with stock := p0.stock - qty } else p0 :=
                      (Option.some.inj hf2).symm
                    refine ⟨hoid, p0, rfl, ?_⟩
                    rw [hlt2, hp2, decFun_price]

lemma checkoutLoop_done_products (oid : Nat) (entries : List (Nat × Rat)) :
    ∀ prods items total nid prods2 items2 total2,
      checkoutLoop oid entries prods items total nid = .done prods2 items2 total2 →
      prods2 = prods.map (fun p => { p with stock := p.stock - entriesQty entries p.id }) := by
  induction entries with
  | nil =>
      intro prods items total nid prods2 items2 total2 h
      injection h with h1 h2 h3
      rw [← h1]
      have hpt : ∀ p : Product,
          ({ p with stock := p.stock - entriesQty [] p.id } : Product) = p := by
        intro p
        rw [entriesQty_nil, sub_zero]
      exact (map_eq_self hpt prods).symm
  | cons e rest ih =>
      intro prods items total nid prods2 items2 total2 h
      obtain ⟨pid, qty⟩ := e
      simp only [checkoutLoop] at h
      cases hf : getProduct prods pid with
      | none =>
          rw [hf] at h
          exact LoopOut.noConfusion h
      | some p =>
          rw [hf] at h
          dsimp only at h
          by_cases hlt : p.stock < qty
          · rw [if_pos hlt] at h
            exact LoopOut.noConfusion h
          · rw [if_neg hlt] at h
            have hrest := ih _ _ _ _ _ _ _ h
            rw [hrest]
            unfold decStock
            rw [List.map_map]
            apply map_congr_fun
            intro q
            by_cases hq : (q.id == pid) = true
            · have hqid : (pid == q.id) = true := by
                rw [beq_iff_eq.mp hq]
                exact beq_self_eq_true pid
              simp only [Function.comp_apply, if_pos hq, entriesQty_cons, if_pos hqid]
              have : q.stock - qty - entriesQty rest q.id
                  = q.stock - (qty + entriesQty rest q.id) := sub_sub _ _ _
              rw [← this]
            · have hqid : ¬ (pid == q.id) = true := by
                intro hc
                exact hq (beq_iff_eq.mpr (beq_iff_eq.mp hc).symm)
              simp only [Function.comp_apply, if_neg hq, entriesQty_cons, if_neg hqid, zero_add]

/-! ### Fresh primary keys -/

lemma mem_le_foldr_max (ids : List Nat) : ∀ x ∈ ids, x ≤ ids.foldr max 0 := by
  induction ids with
  | nil =>
      intro x hx
      cases hx
  | cons a t ih =>
      intro x hx
      rcases List.mem_cons.mp hx with rfl | hxt
      · exact le_max_left _ _
      · exact le_trans (ih x hxt) (le_max_right _ _)

lemma mem_ne_freshId (ids : List Nat) : ∀ x ∈ ids, x ≠ freshId ids := by
  intro x hx
  have := mem_le_foldr_max ids x hx
  unfold freshId
  omega

lemma getOrder_append_setTotal (orders : List Order) (oid : Nat) (now : String) (t : Rat)
    (hfresh : ∀ o ∈ orders, o.id ≠ oid) :
    getOrder ((orders ++ [(⟨oid, now, 0⟩ : Order)]).map
        (fun o => if o.id == oid then { o with total := t } else o)) oid
      = some (⟨oid, now, t⟩ : Order) := by
  induction orders with
  | nil =>
      simp [getOrder, List.find?]
  | cons o rest ih =>
      have ho : o.id ≠ oid := hfresh o (List.mem_cons_self _ _)
      have hrest : ∀ x ∈ rest, x.id ≠ oid := fun x hx => hfresh x (List.mem_cons_of_mem _ hx)
      simp only [List.cons_append, List.map_cons]
      unfold getOrder at ih ⊢
      rw [List.find?_cons_of_neg _ (by simp [ho])]
      exact ih hrest

/-! ### Checkout inversion lemmas -/

lemma checkout_success_inv (now : String) (s s2 : AppState) (oid : Nat)
    (h : checkout now s = (s2, .success oid)) :
    oid = freshId (s.sess.orders.map Order.id) ∧
    ∃ prods items total,
      checkoutLoop oid s.cart s.sess.products [] 0
          (freshId (s.sess.order_items.map OrderItem.id)) = .done prods items total ∧
      s2.db = ⟨prods,
               (s.sess.orders ++ [(⟨oid, now, 0⟩ : Order)]).map
                 (fun o => if o.id == oid then { o with total := total } else o),
               s.sess.order_items ++ items⟩ ∧
      s2.sess = s2.db ∧ s2.cart = [] := by
  cases hc : s.cart with
  | nil =>
      unfold checkout at h
      rw [hc] at h
      dsimp only at h
      simp at h
  | cons e rest =>
      unfold checkout at h
      rw [hc] at h
      dsimp only at h
      cases hloop : checkoutLoop (freshId (s.sess.orders.map Order.id)) (e :: rest)
          s.sess.products [] 0 (freshId (s.sess.order_items.map OrderItem.id)) with
      | abortNone pid prods items =>
          rw [hloop] at h
          dsimp only at h
          simp at h
      | abortStock nm prods items =>
          rw [hloop] at h
          dsimp only at h
          simp at h
      | done prods items total =>
          rw [hloop] at h
          dsimp only at h
          have h1 := congrArg Prod.fst h
          have h2 := congrArg Prod.snd h
          dsimp only at h1 h2
          have hoid : freshId (s.sess.orders.map Order.id) = oid := by
            injection h2
          subst hoid
          refine ⟨rfl, prods, items, total, ?_, ?_, ?_, ?_⟩
          · exact hloop
          · rw [← h1]
          · rw [← h1]
          · rw [← h1]

lemma checkout_cases (now : String) (s : AppState) :
    (s.cart = [] ∧ checkout now s = (s, .emptyCart)) ∨
    ((checkout now s).1.sess.products
        = (checkoutLoop (freshId (s.sess.orders.map Order.id)) s.cart s.sess.products [] 0
            (freshId (s.sess.order_items.map OrderItem.id))).products ∧
     ((checkout now s).1.db.products = s.sess.products ∨
      (checkout now s).1.db.products
        = (checkoutLoop (freshId (s.sess.orders.map Order.id)) s.cart s.sess.products [] 0
            (freshId (s.sess.order_items.map OrderItem.id))).products)) := by
  cases hc : s.cart with
  | nil =>
      left
      exact ⟨rfl, by simp [checkout, hc]⟩
  | cons e rest =>
      right
      cases hloop : checkoutLoop (freshId (s.sess.orders.map Order.id)) (e :: rest)
          s.sess.products [] 0 (freshId (s.sess.order_items.map OrderItem.id)) with
      | abortNone pid prods items =>
          have hck : (checkout now s).1.sess.products = prods ∧
              (checkout now s).1.db.products = s.sess.products := by
            unfold checkout
            rw [hc]
            dsimp only
            rw [hloop]
            dsimp only
            exact ⟨rfl, rfl⟩
          refine ⟨?_, Or.inl hck.2⟩
          rw [hck.1]
          rfl
      | abortStock nm prods items =>
          have hck : (checkout now s).1.sess.products = prods ∧
              (checkout now s).1.db.products = s.sess.products := by
            unfold checkout
            rw [hc]
            dsimp only
            rw [hloop]
            dsimp only
            exact ⟨rfl, rfl⟩
          refine ⟨?_, Or.inl hck.2⟩
          rw [hck.1]
          rfl
      | done prods items total =>
          have hck : (checkout now s).1.sess.products = prods ∧
              (checkout now s).1.db.products = prods := by
            unfold checkout
            rw [hc]
            dsimp only
            rw [hloop]
            dsimp only
            exact ⟨rfl, rfl⟩
          refine ⟨?_, Or.inr ?_⟩
          · rw [hck.1]
            rfl
          · rw [hck.2]
            rfl

/-! ### Claim theorems (easy group) -/

/-- C6: checkout invoked on an empty cart always fails with the empty-cart
message and performs no store access: the whole application state, database
and session included, is returned unchanged. -/
theorem checkout_empty_cart (now : String) (s : AppState) (h : s.cart = []) :
    checkout now s = (s, .emptyCart) := by
  simp [checkout, h]

/-- C6 witness: the empty-cart theorem applied at a concrete clean state. -/
theorem checkout_empty_cart_witness :
    checkout "t" milkClean = (milkClean, .emptyCart) :=
  checkout_empty_cart "t" milkClean rfl

/-- C7: adding quantity `q1` and then `q2` of a product not yet in the cart
leaves exactly one cart entry for that product, holding `q1 + q2`, and the
second addition does not grow the entry count. -/
theorem cart_accumulation (s : AppState) (pid : Nat) (q1 q2 : Rat)
    (hq1 : 0 < q1) (hq2 : 0 < q2) (hnew : ∀ e ∈ s.cart, e.1 ≠ pid) :
    (add_to_cart (add_to_cart s pid q1) pid q2).cart.filter (fun e => e.1 == pid)
        = [(pid, q1 + q2)] ∧
    (add_to_cart (add_to_cart s pid q1) pid q2).cart.length
        = (add_to_cart s pid q1).cart.length := by
  have h1 : (add_to_cart s pid q1).cart = s.cart ++ [(pid, q1)] := by
    simp [add_to_cart, cartAdd_not_mem s.cart pid q1 hnew]
  have h2 : (add_to_cart (add_to_cart s pid q1) pid q2).cart
      = s.cart ++ [(pid, q1 + q2)] := by
    simp only [add_to_cart]
    rw [cartAdd_not_mem s.cart pid q1 hnew]
    exact cartAdd_append_same s.cart pid q1 q2 hnew
  constructor
  · rw [h2, List.filter_append]
    have hnil : s.cart.filter (fun e => e.1 == pid) = [] := by
      rw [List.filter_eq_nil_iff]
      intro e he
      simpa using hnew e he
    simp [hnil]
  · rw [h2, h1]
    simp

/-- C7 witness: accumulating 1 then 2 units of product 1 into the empty
cart of the clean state. -/
theorem cart_accumulation_witness :
    (add_to_cart (add_to_cart milkClean 1 1) 1 2).cart.filter (fun e => e.1 == 1)
        = [(1, 1 + 2)] ∧
    (add_to_cart (add_to_cart milkClean 1 1) 1 2).cart.length
        = (add_to_cart milkClean 1 1).cart.length :=
  cart_accumulation milkClean 1 1 2 (by norm_num) (by norm_num) (by decide)

/-- C1 (code divergence): a checkout that fails stock validation is not
atomic.  On a clean one-product state with stock 10 and a cart asking for
20, the checkout aborts with the insufficient-stock message, yet a brand
new Order row (total still at its 0.0 column default) has already been
committed: the database afterwards differs from the database before. -/
theorem checkout_insufficient_stock_commits_order :
    (checkout "t" { milkClean with cart := [(1, 20)] }).2
        = .insufficientStock "Milk (per kg)" ∧
    (checkout "t" { milkClean with cart := [(1, 20)] }).1.db.orders
        = [⟨1, "t", 0⟩] ∧
    (checkout "t" { milkClean with cart := [(1, 20)] }).1.db ≠ milkClean.db := by
  decide

/-- C5 (code divergence): a cart entry whose product id no longer resolves
does not produce a clean not-found failure.  `session.get` returns `None`
and the `p.stock` attribute access raises, after the new (empty) Order row
was already committed; the cart is left intact. -/
theorem checkout_missing_product_crashes :
    (checkout "t" { milkClean with cart := [(2, 1)] }).2 = .attributeErrorNone 2 ∧
    (checkout "t" { milkClean with cart := [(2, 1)] }).1.db.orders = [⟨1, "t", 0⟩] ∧
    (checkout "t" { milkClean with cart := [(2, 1)] }).1.cart = [(2, 1)] := by
  decide

/-- C4 counterexample: `Upsert` with negative price and negative stock does
not fail; it reports success and persists the new Product row with both
negative values. -/
theorem upsert_negative_accepted :
    (add_product milkClean "Bad" (some (-5)) (some (-1))).2 = .ok ∧
    (add_product milkClean "Bad" (some (-5)) (some (-1))).1.db.products
        = [⟨1, "Milk (per kg)", 150, 10⟩, ⟨2, "Bad", -5, -1⟩] := by
  decide

/-- C4 amended: `Upsert` rejects non-numeric input.  For a non-empty name,
if either numeric field fails to parse the operation reports invalid input
and leaves the whole application state unchanged. -/
theorem upsert_non_numeric_rejected (s : AppState) (name : String)
    (price stock : Option Rat) (hname : ¬ name = "")
    (h : price = none ∨ stock = none) :
    add_product s name price stock = (s, .invalidInput) := by
  rcases h with h | h
  · subst h; cases stock <;> simp [add_product, hname]
  · subst h; cases price <;> simp [add_product, hname]

/-- C4 amended witness: a failed price parse on the clean state. -/
theorem upsert_non_numeric_rejected_witness :
    add_product milkClean "X" none (some 3) = (milkClean, .invalidInput) :=
  upsert_non_numeric_rejected milkClean "X" none (some 3) (by decide) (Or.inl rfl)

/-- C3 counterexample: a committed catalog operation can leave a Product
with negative stock: upserting stock -1 commits it. -/
theorem upsert_negative_stock_persists :
    (add_product milkClean "Overdrawn" (some 1) (some (-1))).2 = .ok ∧
    ∃ p ∈ (add_product milkClean "Overdrawn" (some 1) (some (-1))).1.db.products,
      p.stock < 0 := by
  decide

/-- C8 counterexample: the rendered receipt is not a pure function of the
completed Order and its snapshots.  The same order rendered before and
after a catalog price change (150 to 160) yields different text: the body
line reads the product's current `price_per_unit`. -/
theorem receipt_depends_on_current_price :
    save_receipt [⟨1, "Milk (per kg)", 150, 9⟩] ⟨1, "2024-01-01 00:00:00", 150⟩
        [⟨1, 1, 1, 1, 150⟩]
      ≠ save_receipt [⟨1, "Milk (per kg)", 160, 9⟩] ⟨1, "2024-01-01 00:00:00", 150⟩
        [⟨1, 1, 1, 1, 150⟩] := by
  decide

/-! ### Operation sequences (all non-upsert store operations) -/

/-- One operator action other than catalog upsert. -/
inductive Op
  | opCheckout (now : String)
  | opDelete (pid : Nat)
  | opAddToCart (pid : Nat) (qty : Rat)
  | opRemoveFromCart (pid : Nat)
  | opClearCart
deriving Repr

/-- Apply one operation to the application state. -/
def applyOp (s : AppState) : Op → AppState
  | .opCheckout now => (checkout now s).1
  | .opDelete pid => delete_product s pid
  | .opAddToCart pid qty => add_to_cart s pid qty
  | .opRemoveFromCart pid => remove_from_cart s pid
  | .opClearCart => clear_cart s

/-- Apply a sequence of operations, left to right. -/
def applyOps (s : AppState) (ops : List Op) : AppState :=
  ops.foldl applyOp s

/-- Well-formedness used for stock preservation: session product ids are
distinct (primary keys) and no session or committed stock is negative. -/
def StocksOK (s : AppState) : Prop :=
  (s.sess.products.map Product.id).Nodup ∧
  (∀ p ∈ s.sess.products, 0 ≤ p.stock) ∧
  (∀ p ∈ s.db.products, 0 ≤ p.stock)

lemma applyOp_stocksOK (s : AppState) (op : Op) (h : StocksOK s) :
    StocksOK (applyOp s op) := by
  obtain ⟨hnd, hnnS, hnnD⟩ := h
  cases op with
  | opCheckout now =>
      show StocksOK (checkout now s).1
      rcases checkout_cases now s with ⟨hc, hck⟩ | ⟨hsess, hdb⟩
      · rw [hck]
        exact ⟨hnd, hnnS, hnnD⟩
      · have hres : ∀ p ∈ (checkoutLoop (freshId (s.sess.orders.map Order.id)) s.cart
            s.sess.products [] 0 (freshId (s.sess.order_items.map OrderItem.id))).products,
            0 ≤ p.stock :=
          checkoutLoop_nonneg _ s.cart s.sess.products [] 0 _ hnd hnnS
        refine ⟨?_, ?_, ?_⟩
        · rw [hsess, checkoutLoop_map_id]
          exact hnd
        · rw [hsess]
          exact hres
        · rcases hdb with hdb | hdb
          · rw [hdb]
            exact hnnS
          · rw [hdb]
            exact hres
  | opDelete pid =>
      show StocksOK (delete_product s pid)
      unfold delete_product
      cases hg : getProduct s.sess.products pid with
      | none => exact ⟨hnd, hnnS, hnnD⟩
      | some p =>
          dsimp only
          refine ⟨?_, ?_, ?_⟩
          · have hsub : ((s.sess.products.filter (fun p => p.id != pid)).map Product.id).Sublist
                (s.sess.products.map Product.id) :=
              (List.filter_sublist _).map _
            exact List.Nodup.sublist hsub hnd
          · intro q hq
            exact hnnS q (List.mem_of_mem_filter hq)
          · intro q hq
            exact hnnS q (List.mem_of_mem_filter hq)
  | opAddToCart pid qty => exact ⟨hnd, hnnS, hnnD⟩
  | opRemoveFromCart pid => exact ⟨hnd, hnnS, hnnD⟩
  | opClearCart => exact ⟨hnd, hnnS, hnnD⟩

lemma applyOps_stocksOK (ops : List Op) :
    ∀ s : AppState, StocksOK s → StocksOK (applyOps s ops) := by
  induction ops with
  | nil =>
      intro s h
      exact h
  | cons op rest ih =>
      intro s h
      exact ih (applyOp s op) (applyOp_stocksOK s op h)

/-! ### Claim theorems (checkout group) -/

/-- C2: for every successful checkout, the committed Order's total is the
exact sum of the line totals of the OrderItems created for it; the created
items correspond one-to-one (product id and quantity) to the cart entries,
and each line total is the item's quantity times the referenced Product's
`price_per_unit` as held in the session at the moment checkout ran. -/
theorem checkout_total_correct (now : String) (s s2 : AppState) (oid : Nat)
    (h : checkout now s = (s2, .success oid)) :
    ∃ extra : List OrderItem,
      s2.db.order_items = s.sess.order_items ++ extra ∧
      extra.map (fun it => (it.product_id, it.quantity)) = s.cart ∧
      (∀ it ∈ extra, it.order_id = oid) ∧
      (∃ ord : Order, getOrder s2.db.orders oid = some ord ∧
        ord.total = (extra.map OrderItem.line_total).sum) ∧
      ∀ it ∈ extra, ∃ p, getProduct s.sess.products it.product_id = some p ∧
        it.line_total = it.quantity * p.price_per_unit := by
  obtain ⟨hoid, prods, items, total, hloop, hdb, hsess, hcart⟩ :=
    checkout_success_inv now s s2 oid h
  obtain ⟨extra, hitems, htotal, hmapc, hprops⟩ :=
    checkoutLoop_done oid s.cart s.sess.products [] 0
      (freshId (s.sess.order_items.map OrderItem.id)) prods items total hloop
  have hextra : items = extra := by simpa using hitems
  subst hextra
  refine ⟨items, ?_, hmapc, ?_, ?_, ?_⟩
  · rw [hdb]
  · intro it hit
    exact (hprops it hit).1
  · refine ⟨⟨oid, now, total⟩, ?_, ?_⟩
    · rw [hdb]
      apply getOrder_append_setTotal
      intro o ho
      rw [hoid]
      exact mem_ne_freshId _ o.id (List.mem_map_of_mem Order.id ho)
    · dsimp only
      rw [htotal]
      simp
  · intro it hit
    exact (hprops it hit).2

/-- C2 witness: the total-correctness theorem applied to a concrete
successful checkout (two units of product 1 at price 150, stock 10). -/
theorem checkout_total_correct_witness :
    ∃ extra : List OrderItem,
      (checkout "t" milkCart).1.db.order_items = milkCart.sess.order_items ++ extra ∧
      extra.map (fun it => (it.product_id, it.quantity)) = milkCart.cart ∧
      (∀ it ∈ extra, it.order_id = 1) ∧
      (∃ ord : Order, getOrder (checkout "t" milkCart).1.db.orders 1 = some ord ∧
        ord.total = (extra.map OrderItem.line_total).sum) ∧
      ∀ it ∈ extra, ∃ p, getProduct milkCart.sess.products it.product_id = some p ∧
        it.line_total = it.quantity * p.price_per_unit :=
  checkout_total_correct "t" milkCart (checkout "t" milkCart).1 1 (by decide)

/-- C9: a successful checkout changes, among the committed Product rows,
exactly the stock fields: every product's stock is decreased by its
accumulated cart quantity (zero for products not in the cart, as the second
conjunct shows), while ids, names and prices are untouched. -/
theorem checkout_frame (now : String) (s s2 : AppState) (oid : Nat)
    (hclean : s.sess = s.db) (h : checkout now s = (s2, .success oid)) :
    s2.db.products
        = s.db.products.map
            (fun p => { p with stock := p.stock - entriesQty s.cart p.id }) ∧
    ∀ pid : Nat, (∀ e ∈ s.cart, e.1 ≠ pid) → entriesQty s.cart pid = 0 := by
  obtain ⟨hoid, prods, items, total, hloop, hdb, hsess, hcart⟩ :=
    checkout_success_inv now s s2 oid h
  have hprods := checkoutLoop_done_products oid s.cart s.sess.products [] 0
    (freshId (s.sess.order_items.map OrderItem.id)) prods items total hloop
  constructor
  · rw [hdb]
    dsimp only
    rw [hprods, hclean]
  · intro pid hp
    exact entriesQty_eq_zero s.cart pid hp

/-- C9 witness: the frame theorem applied to the concrete successful
checkout of two units of product 1. -/
theorem checkout_frame_witness :
    (checkout "t" milkCart).1.db.products
        = milkCart.db.products.map
            (fun p => { p with stock := p.stock - entriesQty milkCart.cart p.id }) ∧
    ∀ pid : Nat, (∀ e ∈ milkCart.cart, e.1 ≠ pid) → entriesQty milkCart.cart pid = 0 :=
  checkout_frame "t" milkCart (checkout "t" milkCart).1 1 rfl (by decide)

/-- C10: a single checkout never drives any stock below zero.  The stock
comparison guards every decrement, so if all session and committed stocks
are non-negative when checkout begins (with distinct product ids), they are
non-negative afterwards in every outcome, aborts included. -/
theorem checkout_stock_nonneg (now : String) (s : AppState)
    (hnd : (s.sess.products.map Product.id).Nodup)
    (hnnS : ∀ p ∈ s.sess.products, 0 ≤ p.stock)
    (hnnD : ∀ p ∈ s.db.products, 0 ≤ p.stock) :
    (∀ p ∈ (checkout now s).1.sess.products, 0 ≤ p.stock) ∧
    (∀ p ∈ (checkout now s).1.db.products, 0 ≤ p.stock) := by
  rcases checkout_cases now s with ⟨hc, hck⟩ | ⟨hsess, hdb⟩
  · rw [hck]
    exact ⟨hnnS, hnnD⟩
  · have hres : ∀ p ∈ (checkoutLoop (freshId (s.sess.orders.map Order.id)) s.cart
        s.sess.products [] 0 (freshId (s.sess.order_items.map OrderItem.id))).products,
        0 ≤ p.stock :=
      checkoutLoop_nonneg _ s.cart s.sess.products [] 0 _ hnd hnnS
    constructor
    · rw [hsess]
      exact hres
    · rcases hdb with hdb | hdb
      · rw [hdb]
        exact hnnS
      · rw [hdb]
        exact hres

/-- C10 witness: the non-negativity theorem at a concrete checkout that
aborts on insufficient stock (cart asks 20, stock is 10). -/
theorem checkout_stock_nonneg_witness :
    (∀ p ∈ (checkout "t" { milkClean with cart := [(1, 20)] }).1.sess.products, 0 ≤ p.stock) ∧
    (∀ p ∈ (checkout "t" { milkClean with cart := [(1, 20)] }).1.db.products, 0 ≤ p.stock) :=
  checkout_stock_nonneg "t" { milkClean with cart := [(1, 20)] }
    (by decide) (by decide) (by decide)

/-- C3 amended: every sequence of checkouts, catalog deletes and cart
operations preserves non-negativity of all session and committed stocks
(catalog upsert is excluded: it persists negative inputs unvalidated, see
the counterexample). -/
theorem non_upsert_ops_preserve_stock_nonneg (ops : List Op) (s : AppState)
    (h : StocksOK s) :
    (∀ p ∈ (applyOps s ops).sess.products, 0 ≤ p.stock) ∧
    (∀ p ∈ (applyOps s ops).db.products, 0 ≤ p.stock) := by
  have hok := applyOps_stocksOK ops s h
  exact ⟨hok.2.1, hok.2.2⟩

/-- C3 amended witness: a concrete add-to-cart, checkout, delete sequence
from the clean one-product state. -/
theorem non_upsert_ops_preserve_stock_nonneg_witness :
    (∀ p ∈ (applyOps milkClean
        [Op.opAddToCart 1 1, Op.opCheckout "t", Op.opDelete 1]).sess.products, 0 ≤ p.stock) ∧
    (∀ p ∈ (applyOps milkClean
        [Op.opAddToCart 1 1, Op.opCheckout "t", Op.opDelete 1]).db.products, 0 ≤ p.stock) :=
  non_upsert_ops_preserve_stock_nonneg _ milkClean ⟨by decide, by decide, by decide⟩

/-! ### Receipt purity (amended C8) -/

lemma itemLines_congr (ps1 ps2 : List Product) :
    ∀ items : List OrderItem,
      (∀ it ∈ items,
        (getProduct ps1 it.product_id).map (fun p => (p.name, p.price_per_unit)) =
        (getProduct ps2 it.product_id).map (fun p => (p.name, p.price_per_unit))) →
      itemLines ps1 items = itemLines ps2 items := by
  intro items
  induction items with
  | nil =>
      intro _
      rfl
  | cons it rest ih =>
      intro h
      have hit : itemLine ps1 it = itemLine ps2 it := by
        have hh := h it (List.mem_cons_self _ _)
        unfold itemLine
        cases h1 : getProduct ps1 it.product_id with
        | none =>
            cases h2 : getProduct ps2 it.product_id with
            | none => rfl
            | some p2 =>
                rw [h1, h2] at hh
                exact absurd hh (by simp)
        | some p1 =>
            cases h2 : getProduct ps2 it.product_id with
            | none =>
                rw [h1, h2] at hh
                exact absurd hh (by simp)
            | some p2 =>
                rw [h1, h2] at hh
                simp only [Option.map_some'] at hh
                have hpair := Option.some.inj hh
                have hname : p1.name = p2.name := congrArg Prod.fst hpair
                have hprice : p1.price_per_unit = p2.price_per_unit := congrArg Prod.snd hpair
                dsimp only
                rw [hname, hprice]
      have hrest := ih (fun x hx => h x (List.mem_cons_of_mem _ hx))
      unfold itemLines
      rw [hit, hrest]

/-- C8 amended: receipt text depends only on the Order, its items, and the
current name and unit price of each product the items reference.  Two runs
whose catalogs agree on those (whatever the stocks or other rows) render
identical receipts. -/
theorem receipt_pure_in_name_price (ps1 ps2 : List Product) (o : Order)
    (items : List OrderItem)
    (h : ∀ it ∈ items,
      (getProduct ps1 it.product_id).map (fun p => (p.name, p.price_per_unit)) =
      (getProduct ps2 it.product_id).map (fun p => (p.name, p.price_per_unit))) :
    save_receipt ps1 o items = save_receipt ps2 o items := by
  unfold save_receipt
  rw [itemLines_congr ps1 ps2 items h]

/-- C8 amended witness: catalogs differing only in the referenced product's
stock (9 versus 0) render the same receipt. -/
theorem receipt_pure_in_name_price_witness :
    save_receipt [⟨1, "Milk (per kg)", 150, 9⟩] ⟨1, "2024-01-01 00:00:00", 150⟩
        [⟨1, 1, 1, 1, 150⟩]
      = save_receipt [⟨1, "Milk (per kg)", 150, 0⟩] ⟨1, "2024-01-01 00:00:00", 150⟩
        [⟨1, 1, 1, 1, 150⟩] :=
  receipt_pure_in_name_price _ _ _ _ (by decide)

end MilkStore
